import Mathlib

/-!
Verification of the dexdumper repository: a shallow embedding in Lean 4 of the
pure computational core of the C sources (dex_detector.c, sha1.c,
registry_manager.c, signal_handler.c, memory_scanner.c), together with theorems
settling the specification claims about them.

Conventions of the embedding:
* machine integers are `Nat` with explicit `% 2^w` where C overflow matters;
  byte values are normalised with `% 256` at the point the C code reads them
  through a `uint8_t`;
* memory buffers are total functions `Nat → Nat` (byte at index); host memory
  probed by `read_memory_safely` is a partial map `Nat → Option Nat`, where
  `none` models an address whose read traps (SIGSEGV/SIGBUS): the C code turns
  such a trap into a `0` return via `sigsetjmp`/`siglongjmp`;
* C strings are `List Char`; a `NULL` string pointer is `Option.none`;
* the global registry state of registry_manager.c is threaded explicitly as a
  `RegistryState` value.
-/

namespace DexDumper

/-! ## Constants from config.h -/

/-- config.h: `DEX_HEADER_SIZE` (0x70). -/
def DEX_HEADER_SIZE : Nat := 0x70

/-- config.h: `DEX_MIN_FILE_SIZE` (1 KiB). -/
def DEX_MIN_FILE_SIZE : Nat := 1024

/-- config.h: `DEX_MAX_FILE_SIZE` (50 MiB). -/
def DEX_MAX_FILE_SIZE : Nat := 50 * 1024 * 1024

/-- config.h: `MAX_DUMPED_FILES`. -/
def MAX_DUMPED_FILES : Nat := 512

/-- config.h: `MAX_REGION_SIZE` (200 MiB). -/
def MAX_REGION_SIZE : Nat := 200 * 1024 * 1024

/-- config.h: `MAX_REGION_NAME`. -/
def MAX_REGION_NAME : Nat := 256

/-- config.h: `MAX_PATH_LENGTH`. -/
def MAX_PATH_LENGTH : Nat := 512

/-- Modulus of `uint32_t`. -/
def UINT32_MOD : Nat := 2 ^ 32

/-- Modulus of `uint64_t` / `size_t` / `uintptr_t` on the 64-bit target. -/
def UINT64_MOD : Nat := 2 ^ 64

/-- `UINTPTR_MAX` on the 64-bit target. -/
def UINTPTR_MAX : Nat := 2 ^ 64 - 1

/-! ## dex_detector.c: validate_dex_header_structure -/

/-- Byte of a buffer as the C code sees it through `uint8_t` / `unsigned char`. -/
def byteAt (buf : Nat → Nat) (i : Nat) : Nat := buf i % 256

/-- Little-endian `uint32_t` read at `off`, as performed by
`read_memory_safely(ptr + off, &x, sizeof(uint32_t))` on the little-endian
Android targets. -/
def readU32 (buf : Nat → Nat) (off : Nat) : Nat :=
  byteAt buf off + 256 * byteAt buf (off + 1) +
    65536 * byteAt buf (off + 2) + 16777216 * byteAt buf (off + 3)

/-- dex_detector.c `validate_dex_header_structure`.  The buffer handed to it in
the claims of interest is an accessible local copy, so the four
`read_memory_safely` calls succeed and are modelled as plain buffer reads.
The magic bytes are checked by the caller (`scan_for_dex_signature`), not here.
The `(uint64_t)string_table_offset + (uint64_t)string_table_size * 4`
computation is exact in `Nat` because both operands are below `2^32`, so the
64-bit sum is below `2^34 + 2^32` and never wraps. -/
def validate_dex_header_structure (buf : Nat → Nat) (buffer_size header_offset : Nat) : Nat :=
  if buffer_size < header_offset + DEX_HEADER_SIZE then 0
  else
    let dex_file_size := readU32 buf (header_offset + 0x20)
    if dex_file_size < DEX_MIN_FILE_SIZE ∨ DEX_MAX_FILE_SIZE < dex_file_size then 0
    else if buffer_size - header_offset < dex_file_size then 0
    else if readU32 buf (header_offset + 0x24) ≠ DEX_HEADER_SIZE then 0
    else if readU32 buf (header_offset + 0x28) ≠ 0x12345678 then 0
    else
      let string_table_size := readU32 buf (header_offset + 0x38)
      let string_table_offset := readU32 buf (header_offset + 0x3C)
      if dex_file_size < string_table_offset then 0
      else if dex_file_size < string_table_offset + string_table_size * 4 then 0
      else 1

/-- A concrete 112-byte DEX header whose declared total size is 1024
(`DEX_MIN_FILE_SIZE`), with valid header-size, endian tag, and an in-bounds
string table (offset 0x70, count 0). -/
def headerMinSize : Nat → Nat := fun i =>
  if i = 0x21 then 0x04
  else if i = 0x24 then 0x70
  else if i = 0x28 then 0x78
  else if i = 0x29 then 0x56
  else if i = 0x2A then 0x34
  else if i = 0x2B then 0x12
  else if i = 0x3C then 0x70
  else 0

/-- A concrete DEX header whose declared total size is 50 MiB
(`DEX_MAX_FILE_SIZE` = 0x3200000), with valid structural fields. -/
def headerMaxSize : Nat → Nat := fun i =>
  if i = 0x22 then 0x20
  else if i = 0x23 then 0x03
  else if i = 0x24 then 0x70
  else if i = 0x28 then 0x78
  else if i = 0x29 then 0x56
  else if i = 0x2A then 0x34
  else if i = 0x2B then 0x12
  else if i = 0x3C then 0x70
  else 0

/-- A concrete header with declared size 1024 that passes every structural
check but declares a string-table count of 0x40000000 (bytes 00 00 00 40 at
offset 0x38) whose 4-byte extent overflows 32 bits. -/
def headerHugeStringCount : Nat → Nat := fun i =>
  if i = 0x21 then 0x04
  else if i = 0x24 then 0x70
  else if i = 0x28 then 0x78
  else if i = 0x29 then 0x56
  else if i = 0x2A then 0x34
  else if i = 0x2B then 0x12
  else if i = 0x3B then 0x40
  else 0

/-- C1: whenever the bounds, size-range, size-fit, header-size and endian
checks of `validate_dex_header_structure` pass, the function returns 0 if the
string-table offset field (header offset + 0x3C) exceeds the declared total
size (header offset + 0x20), and returns 0 if string-table offset +
string-table count × 4 exceeds the declared total size, the extent being
computed exactly (wide enough that count values like 0x40000000 cannot wrap). -/
theorem validate_header_rejects_bad_string_table
    (buf : Nat → Nat) (buffer_size header_offset : Nat)
    (hbound : ¬ buffer_size < header_offset + DEX_HEADER_SIZE)
    (hmin : ¬ readU32 buf (header_offset + 0x20) < DEX_MIN_FILE_SIZE)
    (hmax : ¬ DEX_MAX_FILE_SIZE < readU32 buf (header_offset + 0x20))
    (hfit : ¬ buffer_size - header_offset < readU32 buf (header_offset + 0x20))
    (hhdr : readU32 buf (header_offset + 0x24) = DEX_HEADER_SIZE)
    (hend : readU32 buf (header_offset + 0x28) = 0x12345678) :
    (readU32 buf (header_offset + 0x20) < readU32 buf (header_offset + 0x3C) →
      validate_dex_header_structure buf buffer_size header_offset = 0) ∧
    (readU32 buf (header_offset + 0x20) <
        readU32 buf (header_offset + 0x3C) + readU32 buf (header_offset + 0x38) * 4 →
      validate_dex_header_structure buf buffer_size header_offset = 0) := by
  unfold validate_dex_header_structure
  simp only [if_neg hbound, if_neg (not_or.mpr ⟨hmin, hmax⟩), if_neg hfit,
    hhdr, hend, ne_eq, not_true_eq_false, if_false]
  constructor
  · intro hoff
    rw [if_pos hoff]
  · intro hext
    by_cases hoff : readU32 buf (header_offset + 0x20) < readU32 buf (header_offset + 0x3C)
    · rw [if_pos hoff]
    · rw [if_neg hoff, if_pos hext]

/-- Witness for C1: on the concrete header declaring total size 1024 and a
string-table count of 0x40000000 (extent 0x100000000 > 1024), the validator
returns 0; all hypotheses of the theorem are discharged by evaluation. -/
theorem validate_header_rejects_bad_string_table_witness :
    validate_dex_header_structure headerHugeStringCount 1024 0 = 0 :=
  (validate_header_rejects_bad_string_table headerHugeStringCount 1024 0
    (by decide) (by decide) (by decide) (by decide) (by decide) (by decide)).2 (by decide)

/-- C4: `validate_dex_header_structure` returns 0 for any buffer whose declared
total-size field is `DEX_MIN_FILE_SIZE - 1` (1023) or `DEX_MAX_FILE_SIZE + 1`,
regardless of the other fields; and the size check passes at exactly
`DEX_MIN_FILE_SIZE` (1024) and exactly `DEX_MAX_FILE_SIZE` (50 MiB): on
concrete headers declaring those sizes, with the declared size fitting in the
remaining buffer space and all other structural fields valid, validation
succeeds outright. -/
theorem validate_header_size_boundaries :
    (∀ (buf : Nat → Nat) (buffer_size header_offset : Nat),
      readU32 buf (header_offset + 0x20) = DEX_MIN_FILE_SIZE - 1 →
      validate_dex_header_structure buf buffer_size header_offset = 0) ∧
    (∀ (buf : Nat → Nat) (buffer_size header_offset : Nat),
      readU32 buf (header_offset + 0x20) = DEX_MAX_FILE_SIZE + 1 →
      validate_dex_header_structure buf buffer_size header_offset = 0) ∧
    validate_dex_header_structure headerMinSize 1024 0 = 1 ∧
    validate_dex_header_structure headerMaxSize (50 * 1024 * 1024) 0 = 1 := by
  refine ⟨?_, ?_, by decide, by decide⟩
  · intro buf buffer_size header_offset hsz
    unfold validate_dex_header_structure
    split
    · rfl
    · rw [if_pos (Or.inl (by rw [hsz]; decide))]
  · intro buf buffer_size header_offset hsz
    unfold validate_dex_header_structure
    split
    · rfl
    · rw [if_pos (Or.inr (by rw [hsz]; decide))]

/-- Witness for C4: a concrete buffer declaring total size 1023 is rejected;
obtained by applying the theorem's first component to the all-zero buffer with
bytes FF 03 at offset 0x20. -/
theorem validate_header_size_boundaries_witness :
    validate_dex_header_structure
      (fun i => if i = 0x20 then 0xFF else if i = 0x21 then 0x03 else 0) 4096 0 = 0 :=
  validate_header_size_boundaries.1
    (fun i => if i = 0x20 then 0xFF else if i = 0x21 then 0x03 else 0) 4096 0 (by decide)

/-! ## signal_handler.c: validate_memory_access and read_memory_safely

Host memory is a partial byte map `mem : Nat → Option Nat`; `mem a = none`
models an address whose read raises SIGSEGV/SIGBUS.  The installed handler
`siglongjmp`s back, making the probing function return 0, so a trap is
modelled as the corresponding branch returning 0. -/

/-- signal_handler.c `validate_memory_access`: sanity checks on the address,
then a probing read of the first byte and (when `memory_size > 1`) of the last
byte under signal protection. -/
def validate_memory_access (mem : Nat → Option Nat) (memory_address memory_size : Nat) : Nat :=
  if memory_address = 0 then 0
  else if memory_address < 0x1000 ∨ UINTPTR_MAX - memory_size < memory_address then 0
  else if (mem memory_address).isNone then 0
  else if 1 < memory_size ∧ (mem (memory_address + memory_size - 1)).isNone then 0
  else 1

/-- signal_handler.c `read_memory_safely`: parameter validation, null-page
guard, `validate_memory_access`, then the signal-protected `memcpy`, which
traps (and returns 0) exactly when some byte of the source range is
inaccessible.  The destination is identified by its (nonzero iff non-NULL)
address; a trapped copy never reports success, however many bytes the
interrupted `memcpy` already wrote. -/
def read_memory_safely (mem : Nat → Option Nat)
    (source_address destination_buffer read_size : Nat) : Nat :=
  if source_address = 0 ∨ destination_buffer = 0 ∨ read_size = 0 then 0
  else if source_address < 0x1000 then 0
  else if validate_memory_access mem source_address read_size = 0 then 0
  else if (List.range read_size).any fun i => (mem (source_address + i)).isNone then 0
  else 1

/-- C5: `read_memory_safely` returns 0 for a NULL source, NULL destination,
zero size, or a source below the 0x1000 null-page guard; and whenever any byte
of the requested range is inaccessible (its read traps) it returns 0 rather
than reporting success over a partial copy. -/
theorem read_memory_safely_never_partial_success
    (mem : Nat → Option Nat) (src dst size : Nat) :
    (src = 0 ∨ dst = 0 ∨ size = 0 ∨ src < 0x1000 →
      read_memory_safely mem src dst size = 0) ∧
    (∀ i, i < size → mem (src + i) = none →
      read_memory_safely mem src dst size = 0) := by
  constructor
  · intro h
    unfold read_memory_safely
    rcases h with h | h | h | h
    · rw [if_pos (Or.inl h)]
    · rw [if_pos (Or.inr (Or.inl h))]
    · rw [if_pos (Or.inr (Or.inr h))]
    · split
      all_goals simp [read_memory_safely, h]
  · intro i hi hnone
    unfold read_memory_safely
    split
    · rfl
    split
    · rfl
    split
    · rfl
    rw [if_pos]
    exact List.any_eq_true.mpr ⟨i, List.mem_range.mpr hi, by rw [hnone]; rfl⟩

/-- Witness for C5: with every address inaccessible, a 1-byte read at 0x1000
into a non-NULL destination fails; obtained from the second component of the
theorem at byte index 0. -/
theorem read_memory_safely_never_partial_success_witness :
    read_memory_safely (fun _ => none) 0x1000 1 1 = 0 :=
  (read_memory_safely_never_partial_success (fun _ => none) 0x1000 1 1).2 0
    (by decide) rfl

/-! ## memory_scanner.c: region records and should_scan_memory_region -/

/-- common.h `MemoryRegion`: one line of /proc/self/maps.  Addresses, offset,
device numbers and inode are machine integers; the two strings are char
arrays. -/
structure MemoryRegion where
  start_address : Nat
  end_address : Nat
  permissions : List Char
  file_offset : Nat
  device_major : Nat
  device_minor : Nat
  inode_number : Nat
  path_name : List Char
deriving DecidableEq

/-- Model of C `strncmp`-style prefix test used by `strstr`: does `needle`
occur at the head of `hay`? -/
def cstr_starts (hay needle : List Char) : Bool :=
  match needle, hay with
  | [], _ => true
  | _ :: _, [] => false
  | n :: ns, h :: hs => h == n && cstr_starts hs ns

/-- Model of `strstr(hay, needle) != NULL`: `needle` occurs somewhere in
`hay`. -/
def cstr_find (hay needle : List Char) : Bool :=
  match hay with
  | [] => cstr_starts [] needle
  | _ :: t => cstr_starts hay needle || cstr_find t needle

/-- memory_scanner.c `test_region_read_access`: sanity checks, size bounds
[16, MAX_REGION_SIZE], then a 1-byte probing read into the local `test_byte`
whose (valid, nonzero) stack address is `stack_addr`. -/
def test_region_read_access (mem : Nat → Option Nat) (stack_addr : Nat)
    (memory_region : MemoryRegion) : Nat :=
  if memory_region.start_address = 0 ∨ memory_region.end_address = 0 ∨
      memory_region.end_address ≤ memory_region.start_address then 0
  else
    let region_size := memory_region.end_address - memory_region.start_address
    if region_size < 16 ∨ MAX_REGION_SIZE < region_size then 0
    else read_memory_safely mem memory_region.start_address stack_addr 1

/-- memory_scanner.c `excluded_path_patterns` (exact list and order). -/
def excluded_path_patterns : List (List Char) :=
  ["/system/".toList, "/apex/".toList, "/vendor/".toList, "/framework/".toList,
   "core-oj".toList, "core-libart".toList, "android.".toList, "java.".toList,
   "com.android.".toList, "com.google.".toList, "/dev/".toList, "/proc/".toList,
   "/ashmem/".toList, "/dmabuf".toList, "kgsl-3d0".toList, "graphics".toList,
   "[heap]".toList, "[stack]".toList, "[anon:".toList,
   "hwui".toList]

/-- The override condition of `should_scan_memory_region`: DEX-related
substrings, or the current package name when it is non-NULL and nonempty. -/
def override_dex_indicators (path : List Char) (package_name : Option (List Char)) : Bool :=
  cstr_find path ".dex".toList || cstr_find path ".vdex".toList ||
  cstr_find path ".apk".toList || cstr_find path "dalvik".toList ||
  cstr_find path "jit".toList ||
  match package_name with
  | some p => 0 < p.length && cstr_find path p
  | none => false

/-- The exclusion loop of `should_scan_memory_region`: walk the pattern list in
order; on the first pattern found in the path, return 1 if the override fires
(the C `break` falls through to `return 1`) and 0 otherwise; if no pattern
matches, fall through to `return 1`. -/
def exclusion_filter (path : List Char) (pkg : Option (List Char)) :
    List (List Char) → Nat
  | [] => 1
  | pat :: rest =>
    if cstr_find path pat then (if override_dex_indicators path pkg then 1 else 0)
    else exclusion_filter path pkg rest

/-- memory_scanner.c `should_scan_memory_region` with `ENABLE_REGION_FILTERING`
set (its config.h value is 1): permission, size, address and readability
checks, then the path-based exclusion filter for nonempty paths. -/
def should_scan_memory_region (mem : Nat → Option Nat) (stack_addr : Nat)
    (pkg : Option (List Char)) (memory_region : MemoryRegion) : Nat :=
  if 'r' ∉ memory_region.permissions then 0
  else
    let region_size := memory_region.end_address - memory_region.start_address
    if region_size < DEX_MIN_FILE_SIZE ∨ MAX_REGION_SIZE < region_size then 0
    else if memory_region.start_address = 0 ∨ memory_region.end_address = 0 ∨
        memory_region.end_address ≤ memory_region.start_address then 0
    else if test_region_read_access mem stack_addr memory_region = 0 then 0
    else if 0 < memory_region.path_name.length then
      exclusion_filter memory_region.path_name pkg excluded_path_patterns
    else 1

/-- The exclusion loop approves when some pattern matches but the override
fires. -/
theorem exclusion_filter_override (path : List Char) (pkg : Option (List Char))
    (pats : List (List Char)) (hex : ∃ pat ∈ pats, cstr_find path pat = true)
    (hov : override_dex_indicators path pkg = true) :
    exclusion_filter path pkg pats = 1 := by
  induction pats with
  | nil => exact absurd hex (by simp)
  | cons pat rest ih =>
    unfold exclusion_filter
    by_cases hp : cstr_find path pat = true
    · rw [if_pos hp, if_pos hov]
    · rcases hex with ⟨q, hq, hfq⟩
      rcases List.mem_cons.mp hq with rfl | hq'
      · exact absurd hfq hp
      · rw [if_neg hp]
        exact ih ⟨q, hq', hfq⟩

/-- The exclusion loop rejects when some pattern matches and the override does
not fire. -/
theorem exclusion_filter_excludes (path : List Char) (pkg : Option (List Char))
    (pats : List (List Char)) (hex : ∃ pat ∈ pats, cstr_find path pat = true)
    (hov : override_dex_indicators path pkg = false) :
    exclusion_filter path pkg pats = 0 := by
  induction pats with
  | nil => exact absurd hex (by simp)
  | cons pat rest ih =>
    unfold exclusion_filter
    by_cases hp : cstr_find path pat = true
    · rw [if_pos hp, hov]
      rfl
    · rcases hex with ⟨q, hq, hfq⟩
      rcases List.mem_cons.mp hq with rfl | hq'
      · exact absurd hfq hp
      · rw [if_neg hp]
        exact ih ⟨q, hq', hfq⟩

/-- The exclusion loop approves when no pattern matches. -/
theorem exclusion_filter_no_match (path : List Char) (pkg : Option (List Char))
    (pats : List (List Char)) (hex : ∀ pat ∈ pats, cstr_find path pat = false) :
    exclusion_filter path pkg pats = 1 := by
  induction pats with
  | nil => rfl
  | cons pat rest ih =>
    unfold exclusion_filter
    rw [if_neg (by simp [hex pat (List.mem_cons_self pat rest)])]
    exact ih fun q hq => hex q (List.mem_cons_of_mem pat hq)

/-- C6: for a readable, size-admissible region (all checks before the filter
pass), `should_scan_memory_region` returns 1 when the path contains an
exclusion-list substring and also an override substring; returns 0 when it
contains an exclusion substring and no override fires; and returns 1 when it
matches no exclusion pattern at all (override substrings are only consulted
after an exclusion match, so their absence does not matter then). -/
theorem should_scan_region_filtering
    (mem : Nat → Option Nat) (stack_addr : Nat) (pkg : Option (List Char))
    (r : MemoryRegion)
    (hperm : 'r' ∈ r.permissions)
    (hsize : ¬ (r.end_address - r.start_address < DEX_MIN_FILE_SIZE ∨
      MAX_REGION_SIZE < r.end_address - r.start_address))
    (haddr : ¬ (r.start_address = 0 ∨ r.end_address = 0 ∨
      r.end_address ≤ r.start_address))
    (hread : test_region_read_access mem stack_addr r ≠ 0) :
    ((∃ pat ∈ excluded_path_patterns, cstr_find r.path_name pat = true) →
      override_dex_indicators r.path_name pkg = true →
      should_scan_memory_region mem stack_addr pkg r = 1) ∧
    ((∃ pat ∈ excluded_path_patterns, cstr_find r.path_name pat = true) →
      override_dex_indicators r.path_name pkg = false →
      should_scan_memory_region mem stack_addr pkg r = 0) ∧
    ((∀ pat ∈ excluded_path_patterns, cstr_find r.path_name pat = false) →
      should_scan_memory_region mem stack_addr pkg r = 1) := by
  have hbase : ∀ v : Nat,
      (if 0 < r.path_name.length then
        exclusion_filter r.path_name pkg excluded_path_patterns else 1) = v →
      should_scan_memory_region mem stack_addr pkg r = v := by
    intro v hv
    unfold should_scan_memory_region
    rw [if_neg (by simp [hperm]), if_neg hsize, if_neg haddr, if_neg hread]
    exact hv
  refine ⟨fun hex hov => hbase 1 ?_, fun hex hov => hbase 0 ?_, fun hno => hbase 1 ?_⟩
  · rw [if_pos ?_, exclusion_filter_override r.path_name pkg _ hex hov]
    rcases hex with ⟨pat, hpat, hf⟩
    cases hpath : r.path_name with
    | nil =>
      rw [hpath] at hf
      exact absurd hf (by fin_cases hpat <;> decide)
    | cons c t => simp [hpath]
  · rw [if_pos ?_, exclusion_filter_excludes r.path_name pkg _ hex hov]
    rcases hex with ⟨pat, hpat, hf⟩
    cases hpath : r.path_name with
    | nil =>
      rw [hpath] at hf
      exact absurd hf (by fin_cases hpat <;> decide)
    | cons c t => simp [hpath]
  · split
    · exact exclusion_filter_no_match r.path_name pkg _ hno
    · rfl

/-- A concrete readable region backed by a system path that also carries a
`.dex` indicator. -/
def regionSystemDex : MemoryRegion :=
  { start_address := 0x2000
    end_address := 0x2000 + 0x1000
    permissions := "r-xp".toList
    file_offset := 0
    device_major := 0
    device_minor := 0
    inode_number := 7
    path_name := "/system/framework/boot.dex".toList }

/-- Witness for C6: under fully accessible memory, the `/system/` region whose
path also contains `.dex` is approved (override wins); all hypotheses of the
theorem are discharged by evaluation on the concrete region. -/
theorem should_scan_region_filtering_witness :
    should_scan_memory_region (fun _ => some 0) 1 none regionSystemDex = 1 :=
  (should_scan_region_filtering (fun _ => some 0) 1 none regionSystemDex
    (by decide) (by decide) (by decide) (by decide)).1
    ⟨"/system/".toList, by decide, by decide⟩ (by decide)

/-! ## registry_manager.c: the dumped-files registry

The mutable globals `dumped_files_registry` / `dumped_files_count` /
`dumped_files_capacity` are threaded explicitly as a `RegistryState` whose
`entries` list (index 0 = oldest) has length `dumped_files_count`.  The mutex
serialises calls and is invisible in the sequential model. -/

/-- common.h `DumpedFileInfo`. -/
structure DumpedFileInfo where
  inode_number : Nat
  dump_timestamp : Nat
  file_path : List Char
  sha1_digest : List Nat
deriving DecidableEq

/-- The registry globals of registry_manager.c. -/
structure RegistryState where
  entries : List DumpedFileInfo
  capacity : Nat
deriving DecidableEq

/-- Registry at program start: `NULL` array, count 0, capacity 0. -/
def initialRegistry : RegistryState := ⟨[], 0⟩

/-- sha1.c `compare_sha1_digests`: `memcmp(digest1, digest2, 20) == 0`, i.e.
equality of the first 20 bytes. -/
def compare_sha1_digests (digest1 digest2 : List Nat) : Nat :=
  if digest1.take 20 = digest2.take 20 then 1 else 0

/-- The linear-search loop of `is_file_already_dumped`, threading the registry
state to the point of each `return`. -/
def inode_search_loop (st : RegistryState) (file_inode : Nat) :
    List DumpedFileInfo → Nat × RegistryState
  | [] => (0, st)
  | e :: rest =>
    if e.inode_number = file_inode then (1, st)
    else inode_search_loop st file_inode rest

/-- registry_manager.c `is_file_already_dumped`, returning its `int` result and
the registry state at return. -/
def is_file_already_dumped (st : RegistryState) (file_inode : Nat) :
    Nat × RegistryState :=
  inode_search_loop st file_inode st.entries

/-- The linear-search loop of `is_checksum_already_dumped`. -/
def checksum_search_loop (st : RegistryState) (sha1_digest : List Nat) :
    List DumpedFileInfo → Nat × RegistryState
  | [] => (0, st)
  | e :: rest =>
    if compare_sha1_digests e.sha1_digest sha1_digest = 1 then (1, st)
    else checksum_search_loop st sha1_digest rest

/-- registry_manager.c `is_checksum_already_dumped`. -/
def is_checksum_already_dumped (st : RegistryState) (sha1_digest : List Nat) :
    Nat × RegistryState :=
  checksum_search_loop st sha1_digest st.entries

/-- The entry written by `register_dumped_file_with_checksum`: `strncpy`
truncates the path to `MAX_PATH_LENGTH - 1` characters and `memcpy` copies
exactly 20 digest bytes; `now` is the `time(NULL)` timestamp. -/
def store_entry (file_inode now : Nat) (file_path : List Char)
    (sha1_digest : List Nat) : DumpedFileInfo :=
  { inode_number := file_inode
    dump_timestamp := now
    file_path := file_path.take (MAX_PATH_LENGTH - 1)
    sha1_digest := sha1_digest.take 20 }

/-- registry_manager.c `register_dumped_file_with_checksum`.  `alloc_ok` is
whether the `realloc` growing the backing array (attempted only while
`capacity < MAX_DUMPED_FILES`) succeeds; on failure the function returns
immediately.  At capacity the oldest entry is first shifted out with
`memmove` (`count` becomes `MAX_DUMPED_FILES - 1`). -/
def register_dumped_file_with_checksum (st : RegistryState) (alloc_ok : Bool)
    (file_inode now : Nat) (file_path : List Char) (sha1_digest : List Nat) :
    RegistryState :=
  let st1 := if MAX_DUMPED_FILES ≤ st.entries.length
    then { st with entries := (st.entries.drop 1).take (MAX_DUMPED_FILES - 1) }
    else st
  if st1.capacity < MAX_DUMPED_FILES then
    if alloc_ok then
      { entries := st1.entries ++ [store_entry file_inode now file_path sha1_digest]
        capacity := MAX_DUMPED_FILES }
    else st1
  else { st1 with entries := st1.entries ++ [store_entry file_inode now file_path sha1_digest] }

/-- C7: when the reallocation growing the backing storage fails, registration
is a no-op: for any reachable state (count ≤ capacity, so an eviction cannot
have happened while capacity is still below the bound), the state after the
failed call equals the state before it — count, capacity and every entry. -/
theorem register_alloc_failure_noop (st : RegistryState)
    (file_inode now : Nat) (file_path : List Char) (sha1_digest : List Nat)
    (hcount : st.entries.length ≤ st.capacity)
    (hcap : st.capacity < MAX_DUMPED_FILES) :
    register_dumped_file_with_checksum st false file_inode now file_path sha1_digest = st := by
  have h1 : ¬ MAX_DUMPED_FILES ≤ st.entries.length := by omega
  unfold register_dumped_file_with_checksum
  simp only [if_neg h1]
  rw [if_pos hcap]
  simp

/-- Witness for C7: a failed allocation on the empty initial registry leaves it
untouched. -/
theorem register_alloc_failure_noop_witness :
    register_dumped_file_with_checksum initialRegistry false 1 2 [] [] = initialRegistry :=
  register_alloc_failure_noop initialRegistry 1 2 [] [] (by decide) (by decide)

/-- The inode search loop returns with the registry state it started from. -/
theorem inode_search_loop_frame (st : RegistryState) (file_inode : Nat)
    (l : List DumpedFileInfo) : (inode_search_loop st file_inode l).2 = st := by
  induction l with
  | nil => rfl
  | cons e rest ih =>
    unfold inode_search_loop
    split
    · rfl
    · exact ih

/-- The checksum search loop returns with the registry state it started from. -/
theorem checksum_search_loop_frame (st : RegistryState) (d : List Nat)
    (l : List DumpedFileInfo) : (checksum_search_loop st d l).2 = st := by
  induction l with
  | nil => rfl
  | cons e rest ih =>
    unfold checksum_search_loop
    split
    · rfl
    · exact ih

/-- C10: the registry queries are pure: each returns the registry state (count,
capacity, all entries) unchanged, and repeating the same query on the state a
query returned yields the same result. -/
theorem registry_queries_pure (st : RegistryState) (file_inode : Nat) (d : List Nat) :
    (is_file_already_dumped st file_inode).2 = st ∧
    (is_checksum_already_dumped st d).2 = st ∧
    (is_file_already_dumped (is_file_already_dumped st file_inode).2 file_inode).1 =
      (is_file_already_dumped st file_inode).1 ∧
    (is_checksum_already_dumped (is_checksum_already_dumped st d).2 d).1 =
      (is_checksum_already_dumped st d).1 := by
  refine ⟨inode_search_loop_frame st file_inode st.entries,
    checksum_search_loop_frame st d st.entries, ?_, ?_⟩
  · unfold is_file_already_dumped
    rw [inode_search_loop_frame st file_inode st.entries]
  · unfold is_checksum_already_dumped
    rw [checksum_search_loop_frame st d st.entries]

/-! ### FIFO eviction (C3) -/

/-- The last `n` elements of a list. -/
def lastN {α : Type} (n : Nat) (l : List α) : List α := l.drop (l.length - n)

/-- `lastN` keeps a list that is already short enough. -/
theorem lastN_of_le {α : Type} {n : Nat} {l : List α} (h : l.length ≤ n) :
    lastN n l = l := by
  unfold lastN
  rw [Nat.sub_eq_zero_of_le h, List.drop_zero]

/-- `lastN` returns at most `n` elements. -/
theorem lastN_length_le {α : Type} (n : Nat) (l : List α) : (lastN n l).length ≤ n := by
  unfold lastN
  rw [List.length_drop]
  omega

/-- Taking the last `n` elements before appending more does not change the last
`n` elements of the whole. -/
theorem lastN_append_lastN {α : Type} (n : Nat) (a b : List α) :
    lastN n (lastN n a ++ b) = lastN n (a ++ b) := by
  by_cases h : a.length ≤ n
  · rw [lastN_of_le h]
  · push_neg at h
    unfold lastN
    have hdl : (a.drop (a.length - n)).length = n := by
      rw [List.length_drop]; omega
    have hsplit : a.take (a.length - n) ++ (a.drop (a.length - n) ++ b) = a ++ b := by
      rw [← List.append_assoc, List.take_append_drop]
    have htl : (a.take (a.length - n)).length = a.length - n := by
      rw [List.length_take]; omega
    calc (a.drop (a.length - n) ++ b).drop ((a.drop (a.length - n) ++ b).length - n)
        = (a.drop (a.length - n) ++ b).drop b.length := by
          rw [List.length_append, hdl]; congr 1; omega
      _ = (a.take (a.length - n) ++ (a.drop (a.length - n) ++ b)).drop
            ((a.take (a.length - n)).length + b.length) := by
          rw [List.drop_append]
      _ = (a ++ b).drop ((a ++ b).length - n) := by
          rw [hsplit, htl, List.length_append]; congr 1; omega

/-- Registration (with the allocation succeeding) of one entry into a state
already at capacity `MAX_DUMPED_FILES` with at most `MAX_DUMPED_FILES`
entries: the result holds the last `MAX_DUMPED_FILES` of the old entries plus
the new one. -/
theorem register_step (st : RegistryState) (file_inode now : Nat)
    (file_path : List Char) (sha1_digest : List Nat)
    (hlen : st.entries.length ≤ MAX_DUMPED_FILES)
    (hcap : st.capacity = MAX_DUMPED_FILES) :
    register_dumped_file_with_checksum st true file_inode now file_path sha1_digest =
      ⟨lastN MAX_DUMPED_FILES
        (st.entries ++ [store_entry file_inode now file_path sha1_digest]),
       MAX_DUMPED_FILES⟩ := by
  have hM : MAX_DUMPED_FILES = 512 := rfl
  have hx1 : [store_entry file_inode now file_path sha1_digest].length = 1 := rfl
  have hnocap : ¬ st.capacity < MAX_DUMPED_FILES := by omega
  unfold register_dumped_file_with_checksum
  by_cases hful : MAX_DUMPED_FILES ≤ st.entries.length
  · have hexact : st.entries.length = MAX_DUMPED_FILES := le_antisymm hlen hful
    have hdrop : ((st.entries.drop 1).take (MAX_DUMPED_FILES - 1)) = st.entries.drop 1 := by
      apply List.take_of_length_le
      rw [List.length_drop]
      omega
    have hlast : lastN MAX_DUMPED_FILES
        (st.entries ++ [store_entry file_inode now file_path sha1_digest]) =
        st.entries.drop 1 ++ [store_entry file_inode now file_path sha1_digest] := by
      unfold lastN
      have hlen1 : (st.entries ++ [store_entry file_inode now file_path sha1_digest]).length -
          MAX_DUMPED_FILES = 1 := by
        rw [List.length_append, hx1]
        omega
      rw [hlen1]
      exact List.drop_append_of_le_length (by omega)
    simp only [if_pos hful, if_neg hnocap, hdrop, hlast, hcap]
    rw [if_neg (lt_irrefl MAX_DUMPED_FILES)]
  · have hlast : lastN MAX_DUMPED_FILES
        (st.entries ++ [store_entry file_inode now file_path sha1_digest]) =
        st.entries ++ [store_entry file_inode now file_path sha1_digest] := by
      apply lastN_of_le
      rw [List.length_append, hx1]
      omega
    simp only [if_neg hful, if_neg hnocap, hlast, hcap]
    rw [if_neg (lt_irrefl MAX_DUMPED_FILES)]

/-- Registration of an entry record (all allocations succeeding), as folded
over an input sequence. -/
def register_entry (st : RegistryState) (e : DumpedFileInfo) : RegistryState :=
  register_dumped_file_with_checksum st true e.inode_number e.dump_timestamp
    e.file_path e.sha1_digest

/-- The entry as the registry stores it. -/
def stored (e : DumpedFileInfo) : DumpedFileInfo :=
  store_entry e.inode_number e.dump_timestamp e.file_path e.sha1_digest

/-- Registry state after a sequence of successful registrations starting from
the initial (empty) registry. -/
def registry_after (L : List DumpedFileInfo) : RegistryState :=
  L.foldl register_entry initialRegistry

/-- Storing an entry whose path already fits and whose digest has exactly 20
bytes is the identity. -/
theorem stored_eq_self (e : DumpedFileInfo)
    (h1 : e.file_path.length ≤ MAX_PATH_LENGTH - 1)
    (h2 : e.sha1_digest.length = 20) : stored e = e := by
  have hp : e.file_path.take (MAX_PATH_LENGTH - 1) = e.file_path := List.take_of_length_le h1
  have hd : e.sha1_digest.take 20 = e.sha1_digest := List.take_of_length_le (le_of_eq h2)
  unfold stored store_entry
  rw [hp, hd]

/-- Folding registrations over a state at full capacity keeps exactly the last
`MAX_DUMPED_FILES` entries of old-entries-then-new-entries, in order. -/
theorem registry_fold_characterization (L : List DumpedFileInfo) (st : RegistryState)
    (hlen : st.entries.length ≤ MAX_DUMPED_FILES)
    (hcap : st.capacity = MAX_DUMPED_FILES) :
    L.foldl register_entry st =
      ⟨lastN MAX_DUMPED_FILES (st.entries ++ L.map stored), MAX_DUMPED_FILES⟩ := by
  induction L generalizing st with
  | nil =>
    cases st with
    | mk es cap =>
      simp only [List.foldl_nil, List.map_nil, List.append_nil]
      rw [lastN_of_le hlen]
      simp_all
  | cons e rest ih =>
    rw [List.foldl_cons]
    have hstep := register_step st e.inode_number e.dump_timestamp e.file_path
      e.sha1_digest hlen hcap
    rw [show register_entry st e = register_dumped_file_with_checksum st true
      e.inode_number e.dump_timestamp e.file_path e.sha1_digest from rfl, hstep]
    rw [ih _ (lastN_length_le _ _) rfl]
    rw [lastN_append_lastN]
    rw [List.append_assoc]
    rfl

/-- Full characterization of the registry after any nonempty run of successful
registrations: it holds the last `MAX_DUMPED_FILES` stored entries, oldest
first. -/
theorem registry_after_characterization (L : List DumpedFileInfo) (hne : L ≠ []) :
    registry_after L = ⟨lastN MAX_DUMPED_FILES (L.map stored), MAX_DUMPED_FILES⟩ := by
  cases L with
  | nil => exact absurd rfl hne
  | cons e rest =>
    unfold registry_after
    rw [List.foldl_cons]
    have hfirst : register_entry initialRegistry e = ⟨[stored e], MAX_DUMPED_FILES⟩ := by
      rfl
    rw [hfirst]
    rw [registry_fold_characterization rest ⟨[stored e], MAX_DUMPED_FILES⟩
      (by simp [MAX_DUMPED_FILES]) rfl]
    rfl

/-- The checksum search succeeds exactly on digests matching a held entry in
the first 20 bytes. -/
theorem checksum_search_loop_spec (st : RegistryState) (d : List Nat)
    (l : List DumpedFileInfo) :
    ((checksum_search_loop st d l).1 = 1 ↔
      ∃ e ∈ l, e.sha1_digest.take 20 = d.take 20) := by
  induction l with
  | nil => simp [checksum_search_loop]
  | cons e rest ih =>
    unfold checksum_search_loop compare_sha1_digests
    by_cases h : e.sha1_digest.take 20 = d.take 20
    · simp [h]
    · simp only [if_neg h]
      simp [h, ih]

/-- The inode search succeeds exactly on inodes held by some entry. -/
theorem inode_search_loop_spec (st : RegistryState) (file_inode : Nat)
    (l : List DumpedFileInfo) :
    ((inode_search_loop st file_inode l).1 = 1 ↔
      ∃ e ∈ l, e.inode_number = file_inode) := by
  induction l with
  | nil => simp [inode_search_loop]
  | cons e rest ih =>
    unfold inode_search_loop
    by_cases h : e.inode_number = file_inode
    · simp [h]
    · simp [h, ih]

set_option maxRecDepth 4096 in
/-- C3: after more than `MAX_DUMPED_FILES` successful registrations of
well-formed entries (path short enough to survive `strncpy` unchanged, 20-byte
digest) starting from the empty registry, the registry holds exactly the
`MAX_DUMPED_FILES` most recent entries in registration order; after any prefix
of the calls the count never exceeds `MAX_DUMPED_FILES`; and the two duplicate
queries answer 1 exactly for digests/inodes among the currently retained
entries — in particular 0 for one whose only entry was evicted. -/
theorem registry_fifo_eviction (L : List DumpedFileInfo)
    (hlong : MAX_DUMPED_FILES < L.length)
    (hwf : ∀ e ∈ L, e.file_path.length ≤ MAX_PATH_LENGTH - 1 ∧
      e.sha1_digest.length = 20) :
    (registry_after L).entries = L.drop (L.length - MAX_DUMPED_FILES) ∧
    (∀ k, ((L.take k).foldl register_entry initialRegistry).entries.length ≤
      MAX_DUMPED_FILES) ∧
    (∀ d, ((is_checksum_already_dumped (registry_after L) d).1 = 1 ↔
      ∃ e ∈ L.drop (L.length - MAX_DUMPED_FILES),
        e.sha1_digest.take 20 = d.take 20)) ∧
    (∀ i, ((is_file_already_dumped (registry_after L) i).1 = 1 ↔
      ∃ e ∈ L.drop (L.length - MAX_DUMPED_FILES), e.inode_number = i)) := by
  have hne : L ≠ [] := by
    intro h
    rw [h] at hlong
    exact absurd hlong (by decide)
  have hmapgen : ∀ M : List DumpedFileInfo,
      (∀ e ∈ M, e.file_path.length ≤ MAX_PATH_LENGTH - 1 ∧ e.sha1_digest.length = 20) →
      M.map stored = M := by
    intro M
    induction M with
    | nil => intro _; rfl
    | cons e rest ih =>
      intro h
      rw [List.map_cons, stored_eq_self e (h e (List.mem_cons_self e rest)).1
        (h e (List.mem_cons_self e rest)).2,
        ih fun q hq => h q (List.mem_cons_of_mem e hq)]
  have hchar : registry_after L =
      ⟨L.drop (L.length - MAX_DUMPED_FILES), MAX_DUMPED_FILES⟩ := by
    rw [registry_after_characterization L hne, hmapgen L hwf]
    rfl
  refine ⟨by rw [hchar], ?_, ?_, ?_⟩
  · intro k
    cases hk : L.take k with
    | nil => simp [initialRegistry, MAX_DUMPED_FILES]
    | cons e rest =>
      rw [show List.foldl register_entry initialRegistry (e :: rest) =
        registry_after (e :: rest) from rfl]
      rw [registry_after_characterization (e :: rest) (by simp)]
      exact lastN_length_le _ _
  · intro d
    rw [hchar]
    unfold is_checksum_already_dumped
    exact checksum_search_loop_spec _ d _
  · intro i
    rw [hchar]
    unfold is_file_already_dumped
    exact inode_search_loop_spec _ i _

/-- 513 distinct well-formed entries: inode `k`, digest twenty copies of
`k % 256`. -/
def witnessEntries : List DumpedFileInfo :=
  (List.range 513).map fun k => ⟨k, 0, [], List.replicate 20 (k % 256)⟩

/-- Witness for C3: after registering the 513 concrete entries, the registry
retains exactly the entries past the first, in order; hypotheses are
discharged by evaluation on `witnessEntries`. -/
theorem registry_fifo_eviction_witness :
    (registry_after witnessEntries).entries =
      witnessEntries.drop (witnessEntries.length - MAX_DUMPED_FILES) :=
  (registry_fifo_eviction witnessEntries
    (by simp [witnessEntries, MAX_DUMPED_FILES])
    (by
      intro e he
      simp only [witnessEntries, List.mem_map, List.mem_range] at he
      obtain ⟨k, _, rfl⟩ := he
      exact ⟨by simp [MAX_PATH_LENGTH], by simp⟩)).1

/-! ## sha1.c

The hash state `(h0, h1, h2, h3, h4)` evolves through the compression
function; the context couples it with the byte buffer and the running total.
The compression core is stated on the bare hash-state tuple and buffer list —
exactly the data the C routines read — and the `sha1_context` API functions
are thin wrappers around it. -/

/-- sha1.h `sha1_context`.  The C fixed 64-byte array plus `buffer_len` is the
list `buffer` of currently buffered bytes (`buffer_len = buffer.length`);
`total_len` is the `uint64_t` running input length. -/
structure sha1_context where
  h0 : Nat
  h1 : Nat
  h2 : Nat
  h3 : Nat
  h4 : Nat
  buffer : List Nat
  total_len : Nat
deriving DecidableEq

/-- Abbreviation for the five-word hash state. -/
def HState : Type := Nat × Nat × Nat × Nat × Nat

/-- sha1.c `sha1_init` (the RFC 3174 initial state), as the context value it
produces. -/
def sha1_init : sha1_context :=
  ⟨0x67452301, 0xEFCDAB89, 0x98BADCFE, 0x10325476, 0xC3D2E1F0, [], 0⟩

/-- The hash-state tuple held in a context. -/
def sha1_context.hstate (ctx : sha1_context) : HState :=
  (ctx.h0, ctx.h1, ctx.h2, ctx.h3, ctx.h4)

/-- sha1.c `sha1_rotate_left` on `uint32_t` (callers use `1 ≤ shift ≤ 31`). -/
def sha1_rotate_left (value : Nat) (shift : Nat) : Nat :=
  ((value <<< shift) % UINT32_MOD) ||| (value >>> (32 - shift))

/-- The first 16 message-schedule words: the 64-byte block split into
big-endian 32-bit words. -/
def sha1_block_words (block : List Nat) : List Nat :=
  (List.range 16).map fun i =>
    (block.getD (i * 4) 0 % 256) * 16777216 + (block.getD (i * 4 + 1) 0 % 256) * 65536 +
      (block.getD (i * 4 + 2) 0 % 256) * 256 + block.getD (i * 4 + 3) 0 % 256

/-- Extension of the message schedule: `n` iterations of
`w[i] = rotl1(w[i-3] ^ w[i-8] ^ w[i-14] ^ w[i-16])` appended at the end. -/
def sha1_extend_words : List Nat → Nat → List Nat
  | w, 0 => w
  | w, n + 1 =>
    let w2 := sha1_extend_words w n
    w2 ++ [sha1_rotate_left
      ((w2.getD (w2.length - 3) 0) ^^^ (w2.getD (w2.length - 8) 0) ^^^
        (w2.getD (w2.length - 14) 0) ^^^ (w2.getD (w2.length - 16) 0)) 1]

/-- One round of the sha1.c compression loop: round-dependent `f` and `k`
(`~b` on `uint32_t` is XOR with 0xFFFFFFFF), then the state rotation. -/
def sha1_round (i : Nat) (acc : HState) (wi : Nat) : HState :=
  let a := acc.1
  let b := acc.2.1
  let c := acc.2.2.1
  let d := acc.2.2.2.1
  let e := acc.2.2.2.2
  let f := if i < 20 then (b &&& c) ||| ((b ^^^ 0xFFFFFFFF) &&& d)
    else if i < 40 then b ^^^ c ^^^ d
    else if i < 60 then (b &&& c) ||| (b &&& d) ||| (c &&& d)
    else b ^^^ c ^^^ d
  let k := if i < 20 then 0x5A827999 else if i < 40 then 0x6ED9EBA1
    else if i < 60 then 0x8F1BBCDC else 0xCA62C1D6
  let temp := (sha1_rotate_left a 5 + f + e + k + wi) % UINT32_MOD
  (temp, a, sha1_rotate_left b 30, c, d)

/-- The 80-round compression loop over the schedule words, with the round
index carried along. -/
def sha1_rounds : HState → Nat → List Nat → HState
  | acc, _, [] => acc
  | acc, i, wi :: rest => sha1_rounds (sha1_round i acc wi) (i + 1) rest

/-- The whole of sha1.c `sha1_process_block` on the hash state: schedule
expansion, 80 rounds, and the final `h += working-variable` additions on
`uint32_t`. -/
def sha1_compress (hs : HState) (block : List Nat) : HState :=
  let w := sha1_extend_words (sha1_block_words block) 64
  let r := sha1_rounds hs 0 w
  ((hs.1 + r.1) % UINT32_MOD, (hs.2.1 + r.2.1) % UINT32_MOD,
   (hs.2.2.1 + r.2.2.1) % UINT32_MOD, (hs.2.2.2.1 + r.2.2.2.1) % UINT32_MOD,
   (hs.2.2.2.2 + r.2.2.2.2) % UINT32_MOD)

/-- sha1.c `sha1_process_block` as a context transformer (buffer and total
length untouched). -/
def sha1_process_block (ctx : sha1_context) (block : List Nat) : sha1_context :=
  let r := sha1_compress ctx.hstate block
  { ctx with h0 := r.1, h1 := r.2.1, h2 := r.2.2.1, h3 := r.2.2.2.1, h4 := r.2.2.2.2 }

/-- The `while (len > 0)` loop of sha1.c `sha1_update` on the data it touches
(hash state and buffer): copy `min(64 - buffer_len, len)` bytes into the
buffer and process it when it reaches 64 bytes.  The `copy_len = 0` escape is
unreachable from the states the C code maintains (`buffer_len < 64` at loop
entry) and exists only to express termination. -/
def sha1_loop_core (hs : HState) (buf : List Nat) (data : List Nat) : HState × List Nat :=
  if hd : data = [] then (hs, buf)
  else
    let copy_len := min (64 - buf.length) data.length
    if hc : copy_len = 0 then (hs, buf)
    else
      let buf2 := buf ++ data.take copy_len
      if buf2.length = 64 then sha1_loop_core (sha1_compress hs buf2) [] (data.drop copy_len)
      else sha1_loop_core hs buf2 (data.drop copy_len)
termination_by data.length
decreasing_by
  all_goals
    simp only [List.length_drop]
    have hpos : 0 < data.length := List.length_pos.mpr hd
    omega

/-- sha1.c `sha1_update`: `total_len += len` (in `uint64_t`) and the copy
loop updating hash state and buffer. -/
def sha1_update (ctx : sha1_context) (data : List Nat) : sha1_context :=
  let r := sha1_loop_core ctx.hstate ctx.buffer data
  { h0 := r.1.1, h1 := r.1.2.1, h2 := r.1.2.2.1, h3 := r.1.2.2.2.1, h4 := r.1.2.2.2.2,
    buffer := r.2, total_len := (ctx.total_len + data.length) % UINT64_MOD }

/-- sha1.c `sha1_final`: append the 0x80 padding byte, flush a block early if
fewer than 8 bytes remain, zero-pad to 56, append the big-endian 64-bit bit
length, process, and serialise h0..h4 big-endian. -/
def sha1_final (ctx : sha1_context) : List Nat :=
  let bit_len := ctx.total_len * 8 % UINT64_MOD
  let buf1 := ctx.buffer ++ [0x80]
  let step2 : HState × List Nat :=
    if 56 < buf1.length then
      (sha1_compress ctx.hstate (buf1 ++ List.replicate (64 - buf1.length) 0), [])
    else (ctx.hstate, buf1)
  let buf4 := (step2.2 ++ List.replicate (56 - step2.2.length) 0) ++
    ((List.range 8).map fun i => bit_len >>> (56 - i * 8) &&& 0xFF)
  let r := sha1_compress step2.1 buf4
  ((List.range 4).map fun i => r.1 >>> (24 - i * 8) &&& 0xFF) ++
    ((List.range 4).map fun i => r.2.1 >>> (24 - i * 8) &&& 0xFF) ++
    ((List.range 4).map fun i => r.2.2.1 >>> (24 - i * 8) &&& 0xFF) ++
    ((List.range 4).map fun i => r.2.2.2.1 >>> (24 - i * 8) &&& 0xFF) ++
    ((List.range 4).map fun i => r.2.2.2.2 >>> (24 - i * 8) &&& 0xFF)

/-- sha1.c `compute_sha1_checksum`: init, one update over the whole buffer,
final. -/
def compute_sha1_checksum (data : List Nat) : List Nat :=
  sha1_final (sha1_update sha1_init data)

/-! ### The update loop as byte-at-a-time absorption -/

/-- Absorption of a single byte into (hash state, buffer): append, process
when the buffer reaches 64 bytes. -/
def sha1_absorb_byte_core (s : HState × List Nat) (x : Nat) : HState × List Nat :=
  let buf2 := s.2 ++ [x]
  if buf2.length = 64 then (sha1_compress s.1 buf2, []) else (s.1, buf2)

/-- Byte-at-a-time absorption of a whole list. -/
def sha1_absorb_core (s : HState × List Nat) (data : List Nat) : HState × List Nat :=
  data.foldl sha1_absorb_byte_core s

/-- Absorption splits over concatenation. -/
theorem sha1_absorb_core_append (s : HState × List Nat) (a b : List Nat) :
    sha1_absorb_core s (a ++ b) = sha1_absorb_core (sha1_absorb_core s a) b :=
  List.foldl_append sha1_absorb_byte_core s a b

/-- A single absorption keeps the buffer under 64 bytes. -/
theorem sha1_absorb_byte_core_buffer_lt (s : HState × List Nat) (x : Nat)
    (h : s.2.length < 64) : (sha1_absorb_byte_core s x).2.length < 64 := by
  unfold sha1_absorb_byte_core
  dsimp only
  split
  · simp
  · rename_i h64
    simp only [List.length_append, List.length_cons, List.length_nil] at h64 ⊢
    omega

/-- Absorption keeps the buffer under 64 bytes. -/
theorem sha1_absorb_core_buffer_lt (d : List Nat) : ∀ s : HState × List Nat,
    s.2.length < 64 → (sha1_absorb_core s d).2.length < 64 := by
  induction d with
  | nil => intro s h; exact h
  | cons x rest ih =>
    intro s h
    exact ih (sha1_absorb_byte_core s x) (sha1_absorb_byte_core_buffer_lt s x h)

/-- Absorbing a chunk that fits in the free space of the buffer: the bytes are
appended, and the block is processed exactly when the buffer reaches 64. -/
theorem sha1_absorb_core_fill (d : List Nat) : ∀ s : HState × List Nat,
    s.2.length + d.length ≤ 64 →
    sha1_absorb_core s d =
      if s.2.length + d.length = 64 ∧ 0 < d.length then (sha1_compress s.1 (s.2 ++ d), [])
      else (s.1, s.2 ++ d) := by
  induction d with
  | nil =>
    intro s h
    rw [if_neg (by simp)]
    show s = (s.1, s.2 ++ [])
    rw [List.append_nil]
  | cons x rest ih =>
    intro s h
    rw [show sha1_absorb_core s (x :: rest) =
      sha1_absorb_core (sha1_absorb_byte_core s x) rest from rfl]
    simp only [List.length_cons] at h
    by_cases hfull : s.2.length + 1 = 64
    · have hrest : rest = [] := by
        cases rest with
        | nil => rfl
        | cons y t => simp only [List.length_cons] at h; omega
      subst hrest
      have hbyte : sha1_absorb_byte_core s x = (sha1_compress s.1 (s.2 ++ [x]), []) := by
        unfold sha1_absorb_byte_core
        dsimp only
        rw [if_pos (by simp only [List.length_append, List.length_cons, List.length_nil]; omega)]
      rw [hbyte]
      rw [if_pos ⟨by simp only [List.length_cons, List.length_nil]; omega, by simp⟩]
      rfl
    · have hbyte : sha1_absorb_byte_core s x = (s.1, s.2 ++ [x]) := by
        unfold sha1_absorb_byte_core
        dsimp only
        rw [if_neg (by simp only [List.length_append, List.length_cons, List.length_nil]; omega)]
      rw [hbyte]
      rw [ih (s.1, s.2 ++ [x])
        (by simp only [List.length_append, List.length_cons, List.length_nil]; omega)]
      simp only [List.length_append, List.length_cons, List.length_nil, List.append_assoc,
        List.singleton_append]
      by_cases hend : s.2.length + (rest.length + 1) = 64
      · rw [if_pos (by omega), if_pos (by omega)]
      · rw [if_neg (by omega), if_neg (by omega)]

/-- The chunked copy loop computes byte-at-a-time absorption whenever the
buffered prefix is shorter than a block, which the C code's states always
satisfy. -/
theorem sha1_loop_core_eq_absorb (n : Nat) : ∀ (data : List Nat) (hs : HState)
    (buf : List Nat), data.length ≤ n → buf.length < 64 →
    sha1_loop_core hs buf data = sha1_absorb_core (hs, buf) data := by
  induction n with
  | zero =>
    intro data hs buf hlen hbuf
    have hnil : data = [] := List.eq_nil_of_length_eq_zero (Nat.le_zero.mp hlen)
    subst hnil
    rw [sha1_loop_core]
    rfl
  | succ n ih =>
    intro data hs buf hlen hbuf
    by_cases hd : data = []
    · subst hd
      rw [sha1_loop_core]
      rfl
    · have hdpos : 0 < data.length := List.length_pos.mpr hd
      have hcpos : 0 < min (64 - buf.length) data.length := by omega
      rw [sha1_loop_core, dif_neg hd, dif_neg (by omega)]
      have htlen : (data.take (min (64 - buf.length) data.length)).length =
          min (64 - buf.length) data.length := by
        rw [List.length_take]
        omega
      have hsplit : sha1_absorb_core (hs, buf) data =
          sha1_absorb_core (sha1_absorb_core (hs, buf)
            (data.take (min (64 - buf.length) data.length)))
            (data.drop (min (64 - buf.length) data.length)) := by
        rw [← sha1_absorb_core_append, List.take_append_drop]
      have hfits : buf.length + (data.take (min (64 - buf.length) data.length)).length ≤ 64 := by
        rw [htlen]; omega
      by_cases h64 : (buf ++ data.take (min (64 - buf.length) data.length)).length = 64
      · rw [if_pos h64]
        have habs : sha1_absorb_core (hs, buf) (data.take (min (64 - buf.length) data.length)) =
            (sha1_compress hs (buf ++ data.take (min (64 - buf.length) data.length)), []) := by
          rw [sha1_absorb_core_fill _ (hs, buf) hfits, if_pos]
          constructor
          · simp only [List.length_append] at h64
            exact h64
          · rw [htlen]; omega
        rw [hsplit, habs]
        exact ih (data.drop (min (64 - buf.length) data.length)) _ _
          (by rw [List.length_drop]; omega) (by simp)
      · rw [if_neg h64]
        have hlt : (buf ++ data.take (min (64 - buf.length) data.length)).length < 64 := by
          simp only [List.length_append] at h64 ⊢
          rw [htlen] at h64 ⊢
          omega
        rw [ih (data.drop (min (64 - buf.length) data.length)) hs _
          (by rw [List.length_drop]; omega) hlt]
        rw [hsplit]
        have hnc : ¬ (buf.length + (data.take (min (64 - buf.length) data.length)).length = 64 ∧
            0 < (data.take (min (64 - buf.length) data.length)).length) := by
          intro hand
          simp only [List.length_append] at h64
          exact h64 hand.1
        rw [sha1_absorb_core_fill _ (hs, buf) hfits, if_neg hnc]

/-- `sha1_update` in terms of absorption. -/
theorem sha1_update_eq_absorb (ctx : sha1_context) (data : List Nat)
    (h : ctx.buffer.length < 64) :
    sha1_update ctx data =
      { h0 := (sha1_absorb_core (ctx.hstate, ctx.buffer) data).1.1,
        h1 := (sha1_absorb_core (ctx.hstate, ctx.buffer) data).1.2.1,
        h2 := (sha1_absorb_core (ctx.hstate, ctx.buffer) data).1.2.2.1,
        h3 := (sha1_absorb_core (ctx.hstate, ctx.buffer) data).1.2.2.2.1,
        h4 := (sha1_absorb_core (ctx.hstate, ctx.buffer) data).1.2.2.2.2,
        buffer := (sha1_absorb_core (ctx.hstate, ctx.buffer) data).2,
        total_len := (ctx.total_len + data.length) % UINT64_MOD } := by
  unfold sha1_update
  rw [sha1_loop_core_eq_absorb data.length data ctx.hstate ctx.buffer le_rfl h]

/-- Two consecutive updates are one update of the concatenation (the C
invariant: the buffered prefix is shorter than a block). -/
theorem sha1_update_append (ctx : sha1_context) (a b : List Nat)
    (hbuf : ctx.buffer.length < 64) :
    sha1_update (sha1_update ctx a) b = sha1_update ctx (a ++ b) := by
  have habuf : (sha1_absorb_core (ctx.hstate, ctx.buffer) a).2.length < 64 :=
    sha1_absorb_core_buffer_lt a (ctx.hstate, ctx.buffer) hbuf
  rw [sha1_update_eq_absorb ctx a hbuf]
  rw [sha1_update_eq_absorb _ b habuf]
  rw [sha1_update_eq_absorb ctx (a ++ b) hbuf]
  rw [sha1_absorb_core_append]
  simp only [sha1_context.mk.injEq]
  refine ⟨rfl, rfl, rfl, rfl, rfl, rfl, ?_⟩
  rw [Nat.mod_add_mod, List.length_append, Nat.add_assoc]

/-- Folding updates over a chunk list is one update of the flattened input,
for any context satisfying the C invariants (buffered prefix shorter than a
block, total length a `uint64_t` value). -/
theorem sha1_update_fold (chunks : List (List Nat)) : ∀ ctx : sha1_context,
    ctx.buffer.length < 64 → ctx.total_len < UINT64_MOD →
    chunks.foldl sha1_update ctx = sha1_update ctx chunks.flatten := by
  induction chunks with
  | nil =>
    intro ctx hb ht
    rw [List.foldl_nil, List.flatten_nil, sha1_update_eq_absorb ctx [] hb]
    show ctx = _
    rw [show sha1_absorb_core (ctx.hstate, ctx.buffer) [] = (ctx.hstate, ctx.buffer) from rfl]
    simp only [List.length_nil, Nat.add_zero]
    rw [Nat.mod_eq_of_lt ht]
    rfl
  | cons c rest ih =>
    intro ctx hb ht
    rw [List.foldl_cons, List.flatten_cons]
    rw [ih (sha1_update ctx c)
      (by
        rw [sha1_update_eq_absorb ctx c hb]
        exact sha1_absorb_core_buffer_lt c (ctx.hstate, ctx.buffer) hb)
      (by
        rw [sha1_update_eq_absorb ctx c hb]
        exact Nat.mod_lt _ (by decide))]
    rw [sha1_update_append ctx c rest.flatten hb]

/-- C2: digest computation is chunking-independent — for every partition of a
byte sequence into consecutive chunks, init / update-per-chunk / final yields
exactly the 20 digest bytes of `compute_sha1_checksum` applied to the whole
sequence at once. -/
theorem sha1_chunking_independent (chunks : List (List Nat)) :
    sha1_final (chunks.foldl sha1_update sha1_init) =
      compute_sha1_checksum chunks.flatten := by
  rw [sha1_update_fold chunks sha1_init (by simp [sha1_init]) (by simp [sha1_init, UINT64_MOD])]
  rfl

set_option maxRecDepth 100000 in
set_option maxHeartbeats 2000000 in
/-- C8: the digest of the empty input — both as one `compute_sha1_checksum`
call with size 0 and as `sha1_init` immediately followed by `sha1_final` — is
the standard empty-message SHA-1 value da39a3ee5e6b4b0d3255bfef95601890afd80709
(the first entry of config.h `EXCLUDED_SHA1_LIST`). -/
theorem sha1_empty_input_digest :
    compute_sha1_checksum [] =
      [0xda, 0x39, 0xa3, 0xee, 0x5e, 0x6b, 0x4b, 0x0d, 0x32, 0x55,
       0xbf, 0xef, 0x95, 0x60, 0x18, 0x90, 0xaf, 0xd8, 0x07, 0x09] ∧
    sha1_final sha1_init =
      [0xda, 0x39, 0xa3, 0xee, 0x5e, 0x6b, 0x4b, 0x0d, 0x32, 0x55,
       0xbf, 0xef, 0x95, 0x60, 0x18, 0x90, 0xaf, 0xd8, 0x07, 0x09] := by
  have hupd : sha1_update sha1_init [] = sha1_init := by
    rw [sha1_update_eq_absorb sha1_init [] (by simp [sha1_init])]
    rfl
  have hfin : sha1_final sha1_init =
      [0xda, 0x39, 0xa3, 0xee, 0x5e, 0x6b, 0x4b, 0x0d, 0x32, 0x55,
       0xbf, 0xef, 0x95, 0x60, 0x18, 0x90, 0xaf, 0xd8, 0x07, 0x09] := by
    decide
  exact ⟨by rw [compute_sha1_checksum, hupd, hfin], hfin⟩

/-! ## memory_scanner.c: parse_memory_regions

The /proc/self/maps lines are consumed with
`sscanf(line, "%p-%p %4s %lx %x:%x %lu %255s", ...)`.  `sscanf` is libc, not
repository code; it is modelled here for this fixed format string: each
numeric conversion skips leading whitespace and consumes a maximal nonempty
digit run (maps lines carry plain unsigned lowercase numerals, so the
`0x`-prefix and sign forms never occur and are not modelled), `%Ns` skips
leading whitespace and consumes up to `N` non-whitespace characters (failing
only at end of input), literal characters match exactly, and the return value
is the number of conversions assigned before the first failure (end of input
before the first conversion, libc's EOF return, is modelled as 0 — the caller
only compares the count against 7).  Numeric stores wrap at the width of the
stored C type. -/

/-- The C `isspace` set used by scanf whitespace skipping. -/
def is_space_char (c : Char) : Bool :=
  c == ' ' || c == '\t' || c == '\n' || c == '\x0b' || c == '\x0c' || c == '\r'

/-- Value of a hexadecimal digit character. -/
def hex_val (c : Char) : Option Nat :=
  if '0'.toNat ≤ c.toNat ∧ c.toNat ≤ '9'.toNat then some (c.toNat - '0'.toNat)
  else if 'a'.toNat ≤ c.toNat ∧ c.toNat ≤ 'f'.toNat then some (c.toNat - 'a'.toNat + 10)
  else if 'A'.toNat ≤ c.toNat ∧ c.toNat ≤ 'F'.toNat then some (c.toNat - 'A'.toNat + 10)
  else none

/-- Value of a decimal digit character. -/
def dec_val (c : Char) : Option Nat :=
  if '0'.toNat ≤ c.toNat ∧ c.toNat ≤ '9'.toNat then some (c.toNat - '0'.toNat)
  else none

/-- Leading-whitespace skipping of a scanf conversion. -/
def skip_spaces : List Char → List Char
  | [] => []
  | c :: rest => if is_space_char c then skip_spaces rest else c :: rest

/-- Maximal digit run, accumulating the value in the given base. -/
def scan_digits (dv : Char → Option Nat) (base : Nat) : Nat → List Char → Nat × List Char
  | acc, [] => (acc, [])
  | acc, c :: rest =>
    match dv c with
    | some v => scan_digits dv base (acc * base + v) rest
    | none => (acc, c :: rest)

/-- A numeric scanf conversion: skip whitespace, require at least one digit,
consume the maximal digit run. -/
def scan_nat (dv : Char → Option Nat) (base : Nat) (s : List Char) : Option (Nat × List Char) :=
  match skip_spaces s with
  | [] => none
  | c :: rest => if (dv c).isSome then some (scan_digits dv base 0 (c :: rest)) else none

/-- A literal character in the format string: matches exactly, no whitespace
skipping. -/
def scan_lit (ch : Char) : List Char → Option (List Char)
  | [] => none
  | c :: rest => if c == ch then some rest else none

/-- Up to `n` further non-whitespace characters of a `%Ns` conversion. -/
def take_field : Nat → List Char → List Char × List Char
  | _, [] => ([], [])
  | 0, rest => ([], rest)
  | n + 1, c :: rest =>
    if is_space_char c then ([], c :: rest)
    else
      let r := take_field n rest
      (c :: r.1, r.2)

/-- A `%Ns` conversion: skip whitespace, fail at end of input, else consume up
to `n` non-whitespace characters (at least one: the head after skipping is
non-whitespace). -/
def scan_string_field (n : Nat) (s : List Char) : Option (List Char × List Char) :=
  match skip_spaces s with
  | [] => none
  | c :: rest => some (take_field n (c :: rest))

/-- The all-zero `MemoryRegion` produced by the `memset` before parsing. -/
def default_region : MemoryRegion := ⟨0, 0, [], 0, 0, 0, 0, []⟩

/-- The `sscanf(map_line, "%p-%p %4s %lx %x:%x %lu %255s", ...)` call of
`parse_memory_regions`: the number of fields assigned, and the region record
as filled in up to the first failing conversion (remaining fields keep their
`memset` zeros). -/
def sscanf_maps_line (line : List Char) : Nat × MemoryRegion :=
  match scan_nat hex_val 16 line with
  | none => (0, default_region)
  | some (sa, s1) =>
    let r1 := { default_region with start_address := sa % UINT64_MOD }
    match scan_lit '-' s1 with
    | none => (1, r1)
    | some s2 =>
      match scan_nat hex_val 16 s2 with
      | none => (1, r1)
      | some (ea, s3) =>
        let r2 := { r1 with end_address := ea % UINT64_MOD }
        match scan_string_field 4 s3 with
        | none => (2, r2)
        | some (perms, s4) =>
          let r3 := { r2 with permissions := perms }
          match scan_nat hex_val 16 s4 with
          | none => (3, r3)
          | some (off, s5) =>
            let r4 := { r3 with file_offset := off % UINT64_MOD }
            match scan_nat hex_val 16 s5 with
            | none => (4, r4)
            | some (dmaj, s6) =>
              let r5 := { r4 with device_major := dmaj % UINT32_MOD }
              match scan_lit ':' s6 with
              | none => (5, r5)
              | some s7 =>
                match scan_nat hex_val 16 s7 with
                | none => (5, r5)
                | some (dmin, s8) =>
                  let r6 := { r5 with device_minor := dmin % UINT32_MOD }
                  match scan_nat dec_val 10 s8 with
                  | none => (6, r6)
                  | some (ino, s9) =>
                    let r7 := { r6 with inode_number := ino % UINT64_MOD }
                    match scan_string_field 255 s9 with
                    | none => (7, r7)
                    | some (path, _) => (8, { r7 with path_name := path })

/-- The per-line body of the parsing loop: clear the path when exactly 7
fields parsed, keep the region when at least 7 fields parsed, drop it
otherwise.  Allocation of the output array is modelled as succeeding. -/
def parse_step (acc : List MemoryRegion) (line : List Char) : List MemoryRegion :=
  let r := sscanf_maps_line line
  let reg := if r.1 = 7 then { r.2 with path_name := [] } else r.2
  if 7 ≤ r.1 then acc ++ [reg] else acc

/-- memory_scanner.c `parse_memory_regions` over the lines read from
/proc/self/maps (as delivered by `fgets`), returning the region array. -/
def parse_memory_regions (lines : List (List Char)) : List MemoryRegion :=
  lines.foldl parse_step []

/-- The region a single line contributes, if any. -/
def line_region (line : List Char) : Option MemoryRegion :=
  let r := sscanf_maps_line line
  if 7 ≤ r.1 then some (if r.1 = 7 then { r.2 with path_name := [] } else r.2) else none

/-- One parse step appends exactly the line's contribution. -/
theorem parse_step_eq (acc : List MemoryRegion) (line : List Char) :
    parse_step acc line = acc ++ (line_region line).toList := by
  unfold parse_step line_region
  by_cases h7 : 7 ≤ (sscanf_maps_line line).1
  · rw [if_pos h7, if_pos h7]
    rfl
  · rw [if_neg h7, if_neg h7]
    rw [show (none : Option MemoryRegion).toList = [] from rfl, List.append_nil]

/-- The parsing fold is a `filterMap` of the per-line contribution. -/
theorem parse_fold_filterMap (lines : List (List Char)) : ∀ acc : List MemoryRegion,
    lines.foldl parse_step acc = acc ++ lines.filterMap line_region := by
  induction lines with
  | nil => intro acc; rw [List.foldl_nil, List.filterMap_nil, List.append_nil]
  | cons l rest ih =>
    intro acc
    rw [List.foldl_cons, parse_step_eq, ih]
    cases hl : line_region l with
    | none => simp [List.filterMap_cons, hl]
    | some reg => simp [List.filterMap_cons, hl]

/-- Once `skip_spaces` reaches a non-space character, appending further input
does not change what it skips. -/
theorem skip_spaces_append_cons (s : List Char) : ∀ (c : Char) (r u : List Char),
    skip_spaces s = c :: r → skip_spaces (s ++ u) = c :: (r ++ u) := by
  induction s with
  | nil =>
    intro c r u h
    exact absurd h (by simp [skip_spaces])
  | cons a t ih =>
    intro c r u h
    rw [List.cons_append]
    unfold skip_spaces at h ⊢
    by_cases ha : is_space_char a = true
    · rw [if_pos ha] at h ⊢
      exact ih c r u h
    · rw [if_neg ha] at h ⊢
      injection h with h1 h2
      subst h1
      subst h2
      rfl

/-- A maximal digit run that stopped at a non-digit character is unchanged by
appending further input. -/
theorem scan_digits_append_cons (dv : Char → Option Nat) (base : Nat) (s : List Char) :
    ∀ (acc v : Nat) (c : Char) (r u : List Char),
    scan_digits dv base acc s = (v, c :: r) →
    scan_digits dv base acc (s ++ u) = (v, c :: (r ++ u)) := by
  induction s with
  | nil =>
    intro acc v c r u h
    exact absurd h (by simp [scan_digits])
  | cons a t ih =>
    intro acc v c r u h
    rw [List.cons_append]
    unfold scan_digits at h ⊢
    cases hdv : dv a with
    | some w =>
      simp only [hdv] at h ⊢
      exact ih (acc * base + w) v c r u h
    | none =>
      simp only [hdv] at h ⊢
      injection h with h1 h2
      injection h2 with h3 h4
      subst h1
      subst h3
      subst h4
      rfl

/-- A digit run that consumed its whole input continues into appended input
with the accumulated value. -/
theorem scan_digits_append_nil (dv : Char → Option Nat) (base : Nat) (s : List Char) :
    ∀ (acc v : Nat) (u : List Char), scan_digits dv base acc s = (v, []) →
    scan_digits dv base acc (s ++ u) = scan_digits dv base v u := by
  induction s with
  | nil =>
    intro acc v u h
    have h1 : acc = v := by
      unfold scan_digits at h
      injection h
    subst h1
    rfl
  | cons a t ih =>
    intro acc v u h
    rw [List.cons_append]
    simp only [scan_digits] at h ⊢
    cases hdv : dv a with
    | some w =>
      simp only [hdv] at h ⊢
      exact ih (acc * base + w) v u h
    | none =>
      simp only [hdv] at h
      exact absurd h (by simp)

/-- A numeric conversion is unchanged by appending input that starts with a
non-digit character. -/
theorem scan_nat_append (dv : Char → Option Nat) (base : Nat) (s : List Char)
    (v : Nat) (rest : List Char) (w : Char) (t : List Char)
    (h : scan_nat dv base s = some (v, rest)) (hw : dv w = none) :
    scan_nat dv base (s ++ w :: t) = some (v, rest ++ w :: t) := by
  unfold scan_nat at h ⊢
  cases hss : skip_spaces s with
  | nil =>
    simp only [hss] at h
    exact absurd h (by simp)
  | cons c0 r0 =>
    simp only [hss] at h
    simp only [skip_spaces_append_cons s c0 r0 (w :: t) hss]
    by_cases hc0 : (dv c0).isSome
    · rw [if_pos hc0] at h
      rw [if_pos hc0]
      have h2 : scan_digits dv base 0 (c0 :: r0) = (v, rest) := by
        injection h
      have h3 : scan_digits dv base 0 ((c0 :: r0) ++ (w :: t)) = (v, rest ++ w :: t) := by
        cases hrest : rest with
        | nil =>
          rw [hrest] at h2
          rw [scan_digits_append_nil dv base (c0 :: r0) 0 v (w :: t) h2]
          unfold scan_digits
          simp [hw]
        | cons c1 r1 =>
          rw [hrest] at h2
          exact scan_digits_append_cons dv base (c0 :: r0) 0 v c1 r1 (w :: t) h2
      rw [show c0 :: (r0 ++ w :: t) = (c0 :: r0) ++ (w :: t) from rfl, h3]
    · rw [if_neg hc0] at h
      exact absurd h (by simp)


/-- A literal-character match is unchanged by appending input. -/
theorem scan_lit_append (ch : Char) (s rest u : List Char)
    (h : scan_lit ch s = some rest) : scan_lit ch (s ++ u) = some (rest ++ u) := by
  cases s with
  | nil => exact absurd h (by simp [scan_lit])
  | cons c r =>
    rw [List.cons_append]
    simp only [scan_lit] at h ⊢
    by_cases hc : (c == ch) = true
    · rw [if_pos hc] at h
      rw [if_pos hc]
      injection h with h1
      rw [h1]
    · rw [if_neg hc] at h
      exact absurd h (by simp)

/-- A bounded token read that stopped inside its input is unchanged by
appending further input. -/
theorem take_field_append_cons (s : List Char) : ∀ (n : Nat) (tok : List Char) (c : Char)
    (r u : List Char), take_field n s = (tok, c :: r) →
    take_field n (s ++ u) = (tok, c :: (r ++ u)) := by
  induction s with
  | nil =>
    intro n tok c r u h
    exact absurd h (by cases n <;> simp [take_field])
  | cons a t ih =>
    intro n tok c r u h
    rw [List.cons_append]
    cases n with
    | zero =>
      unfold take_field at h ⊢
      injection h with h1 h2
      injection h2 with h3 h4
      subst h1
      subst h3
      subst h4
      rfl
    | succ m =>
      unfold take_field at h ⊢
      by_cases ha : is_space_char a = true
      · rw [if_pos ha] at h ⊢
        injection h with h1 h2
        injection h2 with h3 h4
        subst h1
        subst h3
        subst h4
        rfl
      · rw [if_neg ha] at h ⊢
        injection h with h1 h2
        subst h1
        have hpair : take_field m t = ((take_field m t).1, c :: r) := by
          rw [← h2]
        rw [ih m (take_field m t).1 c r u hpair]

/-- A bounded token read that consumed its whole input yields the same token
when whitespace-led input is appended. -/
theorem take_field_append_nil (s : List Char) : ∀ (n : Nat) (tok : List Char) (w : Char)
    (t : List Char), take_field n s = (tok, []) → is_space_char w = true →
    take_field n (s ++ w :: t) = (tok, w :: t) := by
  induction s with
  | nil =>
    intro n tok w t h hw
    have h1 : tok = [] := by
      cases n <;> (unfold take_field at h; injection h with h1 h2; exact h1.symm)
    subst h1
    cases n with
    | zero => rfl
    | succ m =>
      show take_field (m + 1) (w :: t) = ([], w :: t)
      unfold take_field
      rw [if_pos hw]
  | cons a t2 ih =>
    intro n tok w t h hw
    rw [List.cons_append]
    cases n with
    | zero =>
      unfold take_field at h
      injection h with h1 h2
      exact absurd h2 (by simp)
    | succ m =>
      unfold take_field at h ⊢
      by_cases ha : is_space_char a = true
      · rw [if_pos ha] at h
        injection h with h1 h2
        exact absurd h2 (by simp)
      · rw [if_neg ha] at h ⊢
        injection h with h1 h2
        subst h1
        rw [ih m (take_field m t2).1 w t (by rw [← h2]) hw]

/-- A `%Ns` conversion is unchanged by appending whitespace-led input. -/
theorem scan_string_field_append (n : Nat) (s : List Char) (tok rest : List Char)
    (w : Char) (t : List Char) (h : scan_string_field n s = some (tok, rest))
    (hw : is_space_char w = true) :
    scan_string_field n (s ++ w :: t) = some (tok, rest ++ w :: t) := by
  unfold scan_string_field at h ⊢
  cases hss : skip_spaces s with
  | nil =>
    simp only [hss] at h
    exact absurd h (by simp)
  | cons c0 r0 =>
    simp only [hss] at h
    simp only [skip_spaces_append_cons s c0 r0 (w :: t) hss]
    have h2 : take_field n (c0 :: r0) = (tok, rest) := by
      injection h
    have h3 : take_field n ((c0 :: r0) ++ (w :: t)) = (tok, rest ++ w :: t) := by
      cases hrest : rest with
      | nil =>
        rw [hrest] at h2
        rw [take_field_append_nil (c0 :: r0) n tok w t h2 hw]
        rfl
      | cons c1 r1 =>
        rw [hrest] at h2
        exact take_field_append_cons (c0 :: r0) n tok c1 r1 (w :: t) h2
    rw [show c0 :: (r0 ++ w :: t) = (c0 :: r0) ++ (w :: t) from rfl, h3]

/-- A line on which all eight conversions succeed parses identically when more
text is appended after a separating space: the format string ends after the
eighth conversion, so everything beyond it is ignored. -/
theorem sscanf_ignores_after_eighth (line extra : List Char)
    (h8 : (sscanf_maps_line line).1 = 8) :
    sscanf_maps_line (line ++ ' ' :: extra) = (8, (sscanf_maps_line line).2) := by
  have hhw : hex_val ' ' = none := rfl
  have hdw : dec_val ' ' = none := rfl
  have hsw : is_space_char ' ' = true := rfl
  unfold sscanf_maps_line at h8 ⊢
  cases e1 : scan_nat hex_val 16 line with
  | none =>
    simp only [e1] at h8
    exact absurd h8 (by decide)
  | some p1 =>
    obtain ⟨sa, s1⟩ := p1
    simp only [e1, scan_nat_append hex_val 16 line sa s1 ' ' extra e1 hhw] at h8 ⊢
    cases e2 : scan_lit '-' s1 with
    | none =>
      simp only [e2] at h8
      exact absurd h8 (by decide)
    | some s2 =>
      simp only [e2, scan_lit_append '-' s1 s2 (' ' :: extra) e2] at h8 ⊢
      cases e3 : scan_nat hex_val 16 s2 with
      | none =>
        simp only [e3] at h8
        exact absurd h8 (by decide)
      | some p3 =>
        obtain ⟨ea, s3⟩ := p3
        simp only [e3, scan_nat_append hex_val 16 s2 ea s3 ' ' extra e3 hhw] at h8 ⊢
        cases e4 : scan_string_field 4 s3 with
        | none =>
          simp only [e4] at h8
          exact absurd h8 (by decide)
        | some p4 =>
          obtain ⟨perms, s4⟩ := p4
          simp only [e4,
            scan_string_field_append 4 s3 perms s4 ' ' extra e4 hsw] at h8 ⊢
          cases e5 : scan_nat hex_val 16 s4 with
          | none =>
            simp only [e5] at h8
            exact absurd h8 (by decide)
          | some p5 =>
            obtain ⟨off, s5⟩ := p5
            simp only [e5, scan_nat_append hex_val 16 s4 off s5 ' ' extra e5 hhw] at h8 ⊢
            cases e6 : scan_nat hex_val 16 s5 with
            | none =>
              simp only [e6] at h8
              exact absurd h8 (by decide)
            | some p6 =>
              obtain ⟨dmaj, s6⟩ := p6
              simp only [e6,
                scan_nat_append hex_val 16 s5 dmaj s6 ' ' extra e6 hhw] at h8 ⊢
              cases e7 : scan_lit ':' s6 with
              | none =>
                simp only [e7] at h8
                exact absurd h8 (by decide)
              | some s7 =>
                simp only [e7, scan_lit_append ':' s6 s7 (' ' :: extra) e7] at h8 ⊢
                cases e8 : scan_nat hex_val 16 s7 with
                | none =>
                  simp only [e8] at h8
                  exact absurd h8 (by decide)
                | some p8 =>
                  obtain ⟨dmin, s8⟩ := p8
                  simp only [e8,
                    scan_nat_append hex_val 16 s7 dmin s8 ' ' extra e8 hhw] at h8 ⊢
                  cases e9 : scan_nat dec_val 10 s8 with
                  | none =>
                    simp only [e9] at h8
                    exact absurd h8 (by decide)
                  | some p9 =>
                    obtain ⟨ino, s9⟩ := p9
                    simp only [e9,
                      scan_nat_append dec_val 10 s8 ino s9 ' ' extra e9 hdw] at h8 ⊢
                    cases e10 : scan_string_field 255 s9 with
                    | none =>
                      simp only [e10] at h8
                      exact absurd h8 (by decide)
                    | some p10 =>
                      obtain ⟨path, rest9⟩ := p10
                      simp only [e10,
                        scan_string_field_append 255 s9 path rest9 ' ' extra e10 hsw]

/-- C9: a maps line yielding fewer than seven fields contributes no region
while parsing continues with the remaining lines; a line yielding exactly
seven fields contributes a region with an empty path; and on a line where all
eight fields parse, any text appended beyond the eighth field (after a field
separator) is ignored — field count and parsed region are unchanged. -/
theorem parse_maps_field_handling :
    (∀ pre post line, (sscanf_maps_line line).1 < 7 →
      parse_memory_regions (pre ++ line :: post) = parse_memory_regions (pre ++ post)) ∧
    (∀ pre line, (sscanf_maps_line line).1 = 7 →
      parse_memory_regions (pre ++ [line]) =
        parse_memory_regions pre ++ [{ (sscanf_maps_line line).2 with path_name := [] }]) ∧
    (∀ line extra, (sscanf_maps_line line).1 = 8 →
      sscanf_maps_line (line ++ ' ' :: extra) = (8, (sscanf_maps_line line).2)) := by
  refine ⟨?_, ?_, fun line extra h => sscanf_ignores_after_eighth line extra h⟩
  · intro pre post line h
    unfold parse_memory_regions
    rw [parse_fold_filterMap, parse_fold_filterMap]
    have hnone : line_region line = none := by
      unfold line_region
      rw [if_neg (by omega)]
    rw [List.filterMap_append, List.filterMap_append, List.filterMap_cons, hnone]
  · intro pre line h
    unfold parse_memory_regions
    rw [parse_fold_filterMap, parse_fold_filterMap]
    have hsome : line_region line =
        some { (sscanf_maps_line line).2 with path_name := [] } := by
      unfold line_region
      rw [if_pos (by omega), if_pos h]
    rw [List.filterMap_append, List.filterMap_cons, hsome, List.filterMap_nil]
    simp

/-- Witness for C9: the line "garbage" yields zero fields and is discarded,
while the following well-formed line is still parsed; the hypothesis is
discharged by evaluating the parser on the concrete line. -/
theorem parse_maps_field_handling_witness :
    parse_memory_regions
      ["garbage".toList,  "b0000000-b0100000 r-xp 0 fd:00 44 /data/app/base.apk".toList] =
      parse_memory_regions
        ["b0000000-b0100000 r-xp 0 fd:00 44 /data/app/base.apk".toList] :=
  parse_maps_field_handling.1 []
    ["b0000000-b0100000 r-xp 0 fd:00 44 /data/app/base.apk".toList]
    "garbage".toList (by decide)

end DexDumper
